import Mathlib

/-!
Verification of `generate_icons.py`: a one-shot utility that derives Android
launcher icons (standard and round) at five fixed densities from one source
photograph.

The embedding models the imaging-library primitives the script calls
(crop, resize, new, paste-with-mask, ellipse fill) over a pixel-function
representation of images, and the filesystem as a finite map from paths
(component lists) to file contents, with an operation journal.  Resampling
(`Image.LANCZOS`) is a floating-point filter; it is embedded as an abstract
sampler parameter `lz`: the library guarantees only the output dimensions,
and every theorem below that touches resized pixel values either holds for
all samplers or takes the relevant property of the sampler as a hypothesis.
-/

namespace GenIcons

/-- An RGBA pixel: red, green, blue, alpha channels, each an 8-bit value
written 0..255. -/
structure RGBA where
  r : Nat
  g : Nat
  b : Nat
  a : Nat
deriving DecidableEq, Repr

/-- An in-memory pixel raster: width, height and a pixel function.  Pixel
`(x, y)` has its top-left corner at point `(x, y)` and its center at
`(x + 1/2, y + 1/2)` of the continuous coordinate plane PIL's drawing
primitives use. -/
@[ext]
structure Image where
  width : Nat
  height : Nat
  px : Nat → Nat → RGBA

/-- A resampling filter: given a source image, a target `(width, height)` and
a target pixel position, it produces the resampled pixel.  This stands for
`Image.LANCZOS`, whose float weights are outside the embedding. -/
def Resample : Type := Image → Nat × Nat → Nat → Nat → RGBA

/-- PIL `img.crop((l, t, r, b))`: the `(r - l) × (b - t)` sub-image whose
pixel `(x, y)` is the source pixel `(l + x, t + y)`. -/
def Image.crop (img : Image) (l t r b : Nat) : Image where
  width := r - l
  height := b - t
  px x y := img.px (l + x) (t + y)

/-- PIL `img.resize((w, h), Image.LANCZOS)`: a `w × h` image whose pixels
are produced by the resampling filter. -/
def Image.resize (lz : Resample) (img : Image) (wh : Nat × Nat) : Image where
  width := wh.1
  height := wh.2
  px x y := lz img wh x y

/-- PIL `Image.new("RGBA", (w, h), c)`: a `w × h` image with every pixel `c`. -/
def Image.newRGBA (w h : Nat) (c : RGBA) : Image where
  width := w
  height := h
  px _ _ := c

/-- PIL `img.copy()`: an independent copy; images are immutable values in
the embedding, so the copy is the image itself. -/
def Image.copy (img : Image) : Image := img

/-- PIL `img.convert("RGBA")` on an image loaded with the given mode: an
image already carrying an alpha channel is unchanged; one without (the
program's source is a JPEG, mode `RGB`) gets a fully opaque alpha channel. -/
def convertRGBA (mode : String) (img : Image) : Image :=
  if mode = "RGBA" then img
  else { img with px := fun x y => { img.px x y with a := 255 } }

/-- Lines 32-34 of the script: `Image.new("L", (s, s), 0)` followed by
`ImageDraw.Draw(mask).ellipse((0, 0, s, s), fill=255)`.  The bounding box
`(0, 0, s, s)` is inclusive, so the filled disc has center `(s/2, s/2)` and
radius `s/2` in the continuous plane; a pixel is filled (value 255) exactly
when its center `(x + 1/2, y + 1/2)` lies in that disc, i.e. when
`(2x + 1 - s)^2 + (2y + 1 - s)^2 ≤ s^2`; every other pixel keeps the
background value 0. -/
def roundMask (s : Nat) (x y : Nat) : Nat :=
  if (2 * (x : Int) + 1 - s) ^ 2 + (2 * (y : Int) + 1 - s) ^ 2 ≤ (s : Int) ^ 2
  then 255 else 0

/-- Per-channel blend `(dst * (255 - m) + src * m) / 255` used by PIL paste
for intermediate mask values; the script's mask only takes the values 0 and
255, so this branch is never taken here. -/
def blendPx (dst src : RGBA) (m : Nat) : RGBA where
  r := (dst.r * (255 - m) + src.r * m) / 255
  g := (dst.g * (255 - m) + src.g * m) / 255
  b := (dst.b * (255 - m) + src.b * m) / 255
  a := (dst.a * (255 - m) + src.a * m) / 255

/-- PIL `base.paste(src, (0, 0), mask)` with a single-channel mask: inside
the pasted region, a pixel with mask value 255 is copied from `src` as is
(all four channels), one with mask value 0 keeps the `base` value, and
intermediate values blend; outside the region the base is untouched. -/
def Image.paste (base src : Image) (mask : Nat → Nat → Nat) : Image where
  width := base.width
  height := base.height
  px x y :=
    if x < src.width ∧ y < src.height then
      if mask x y = 255 then src.px x y
      else if mask x y = 0 then base.px x y
      else blendPx (base.px x y) (src.px x y) (mask x y)
    else base.px x y

/-- Lines 21-27 of the script: crop to the maximal centered square. -/
def make_square (img : Image) : Image :=
  let side := min img.width img.height
  let left := (img.width - side) / 2
  let top := (img.height - side) / 2
  img.crop left top (left + side) (top + side)

/-- Lines 29-37 of the script: resize to `size × size`, then composite onto
a fully transparent canvas through the circular mask. -/
def make_round (lz : Resample) (img : Image) (size : Nat) : Image :=
  let img' := Image.resize lz img (size, size)
  let mask := roundMask size
  let result := Image.newRGBA size size ⟨0, 0, 0, 0⟩
  result.paste img' mask

/-- A filesystem path, as its components under the root: the script builds
every path with `os.path.join` from two fixed `os.path.expanduser` bases, so
paths are modelled as component lists (no separator or normalization
issues arise). -/
abbrev Path : Type := List String

/-- Content of a file: an image file with its mode (the source JPEG decodes
with mode `RGB`, saved icons are `PNG` images carrying RGBA pixels), or a
non-image file such as the legacy XML. -/
inductive FileData where
  | image (mode : String) (img : Image)
  | text (content : String)

/-- A filesystem operation the script performs, as journalled by the
embedding: `os.makedirs`, `Image.save`, `os.remove`. -/
inductive Act where
  | mkdir (p : Path)
  | write (p : Path) (d : FileData)
  | remove (p : Path)

/-- A filesystem error: missing path, unreadable/undecodable image, or a
permission denial (permissions, disk full, …). -/
inductive Err where
  | notFound (p : Path)
  | notImage (p : Path)
  | denied (p : Path)

/-- The filesystem state: files (later entries shadowed by earlier ones),
existing directories, and the journal of operations performed so far. -/
structure FS where
  files : List (Path × FileData)
  dirs : List Path
  log : List Act

/-- Lookup of a path in an association list of files. -/
def lookupFile : List (Path × FileData) → Path → Option FileData
  | [], _ => none
  | (q, d) :: rest, p => if p = q then some d else lookupFile rest p

/-- Removal of every entry of a path from an association list of files. -/
def eraseFile : List (Path × FileData) → Path → List (Path × FileData)
  | [], _ => []
  | (q, d) :: rest, p =>
      if p = q then eraseFile rest p else (q, d) :: eraseFile rest p

/-- Boolean membership of a path in a list of paths. -/
def memPath : List Path → Path → Bool
  | [], _ => false
  | q :: rest, p => if p = q then true else memPath rest p

/-- Content of the file at a path, when present. -/
def FS.read (fs : FS) (p : Path) : Option FileData := lookupFile fs.files p

/-- Existence of a file at a path (`os.path.exists`). -/
def FS.hasFile (fs : FS) (p : Path) : Bool := (fs.read p).isSome

/-- Existence of a directory. -/
def FS.hasDir (fs : FS) (p : Path) : Bool := memPath fs.dirs p

/-- Effect of writing a file: the new content shadows any previous content
at the path; the write is journalled. -/
def FS.write (fs : FS) (p : Path) (d : FileData) : FS :=
  ⟨(p, d) :: fs.files, fs.dirs, fs.log ++ [.write p d]⟩

/-- Effect of creating a directory. -/
def FS.addDir (fs : FS) (p : Path) : FS :=
  ⟨fs.files, p :: fs.dirs, fs.log ++ [.mkdir p]⟩

/-- Effect of removing a file. -/
def FS.removeFile (fs : FS) (p : Path) : FS :=
  ⟨eraseFile fs.files p, fs.dirs, fs.log ++ [.remove p]⟩

/-- The ambient permissions: which paths the process may read, write,
create as directories, or remove.  These model the error sources of the
spec's taxonomy (permission denial, disk full, …); the filesystem state
itself models the missing-source error. -/
structure Perm where
  canRead : Path → Bool
  canWrite : Path → Bool
  canMkdir : Path → Bool
  canRemove : Path → Bool

/-- Line 41 of the script, `Image.open(SRC)`: fails (a propagated Python
exception, `Except.error` here, carrying the filesystem at the failure
point) when the path is unreadable, missing, or not a decodable image;
otherwise yields the image and its mode. -/
def openImage (perm : Perm) (fs : FS) (p : Path) :
    Except (Err × FS) (String × Image) :=
  if perm.canRead p then
    match fs.read p with
    | some (.image mode img) => .ok (mode, img)
    | some (.text _) => .error (.notImage p, fs)
    | none => .error (.notFound p, fs)
  else .error (.denied p, fs)

/-- Line 47, `os.makedirs(out_dir, exist_ok=True)`: idempotent when the
directory exists; otherwise creates it or fails on denial. -/
def makedirs (perm : Perm) (fs : FS) (p : Path) : Except (Err × FS) FS :=
  if fs.hasDir p || perm.canMkdir p then .ok (fs.addDir p)
  else .error (.denied p, fs)

/-- Lines 52 and 58, `img.save(path, "PNG")`: overwrites any existing file
at the path, or fails on denial. -/
def savePNG (perm : Perm) (fs : FS) (p : Path) (img : Image) :
    Except (Err × FS) FS :=
  if perm.canWrite p then .ok (fs.write p (.image "PNG" img))
  else .error (.denied p, fs)

/-- Line 64, `os.remove(xml_path)`: deletes the file, failing on denial or
if the path is missing (the script only calls it after an existence check). -/
def removeFileOp (perm : Perm) (fs : FS) (p : Path) : Except (Err × FS) FS :=
  if perm.canRemove p then
    if fs.hasFile p then .ok (fs.removeFile p) else .error (.notFound p, fs)
  else .error (.denied p, fs)

/-- The process environment: the variable map plus the invoking user's
password-database home directory, which `os.path.expanduser` falls back to
when `HOME` is unset. -/
structure Env where
  vars : List (String × Path)
  pwdHome : Path

/-- Lookup of a variable in the environment. -/
def lookupVar : List (String × Path) → String → Option Path
  | [], _ => none
  | (k, v) :: rest, n => if n = k then some v else lookupVar rest n

/-- The home directory `os.path.expanduser` uses on POSIX: the environment
variable `HOME` if set, else the password database entry of the user. -/
def Env.getHome (env : Env) : Path := (lookupVar env.vars "HOME").getD env.pwdHome

/-- Python `os.path.expanduser("~/" + tail)`: the leading `~` is replaced
by the home directory. -/
def expandUser (env : Env) (tail : Path) : Path := env.getHome ++ tail

/-- Line 10 of the script: the fixed source path under the home directory. -/
def SRC (env : Env) : Path :=
  expandUser env ["storage", "downloads", "aigentik_app_icon.jpg"]

/-- Line 11: the fixed output root under the home directory. -/
def RES (env : Env) : Path :=
  expandUser env ["aigentik-android", "app", "src", "main", "res"]

/-- Lines 13-19: the fixed ordered density table (Python dicts preserve
insertion order). -/
def DENSITIES : List (String × Nat) :=
  [("mipmap-mdpi", 48), ("mipmap-hdpi", 72), ("mipmap-xhdpi", 96),
   ("mipmap-xxhdpi", 144), ("mipmap-xxxhdpi", 192)]

/-- Line 62: the legacy file `drawable/ic_launcher.xml` under the output
root. -/
def xmlPath (env : Env) : Path := RES env ++ ["drawable", "ic_launcher.xml"]

/-- The standard icon path for a density directory. -/
def iconPath (env : Env) (d : String) : Path :=
  (RES env ++ [d]) ++ ["ic_launcher.png"]

/-- The round icon path for a density directory. -/
def roundPath (env : Env) (d : String) : Path :=
  (RES env ++ [d]) ++ ["ic_launcher_round.png"]

/-- Lines 45-59: the body of the per-density loop — ensure the directory,
save the resized icon, save the round icon. -/
def densityStep (perm : Perm) (lz : Resample) (env : Env) (src : Image)
    (fs : FS) (e : String × Nat) : Except (Err × FS) FS := do
  let dir := RES env ++ [e.1]
  let fs ← makedirs perm fs dir
  let fs ← savePNG perm fs (dir ++ ["ic_launcher.png"])
    (Image.resize lz src (e.2, e.2))
  savePNG perm fs (dir ++ ["ic_launcher_round.png"])
    (make_round lz (Image.copy src) e.2)

/-- Lines 39-65, the driver `main()`: open and convert the source, crop it
square, run the density loop in table order, then delete the legacy XML if
present.  Every filesystem failure propagates as an `Except.error` carrying
the state at the failure point — nothing is caught. -/
def main (perm : Perm) (lz : Resample) (env : Env) (fs : FS) :
    Except (Err × FS) FS := do
  let mi ← openImage perm fs (SRC env)
  let src := make_square (convertRGBA mi.1 mi.2)
  let fs ← List.foldlM (densityStep perm lz env src) fs DENSITIES
  if fs.hasFile (xmlPath env) then removeFileOp perm fs (xmlPath env)
  else pure fs

/-- Effect of one journalled operation on the filesystem. -/
def applyAct (fs : FS) : Act → FS
  | .mkdir p => fs.addDir p
  | .write p d => fs.write p d
  | .remove p => fs.removeFile p

/-- Effect of a sequence of operations. -/
def applyActs (fs : FS) (l : List Act) : FS := l.foldl applyAct fs

/-- The three operations a successful loop iteration performs. -/
def stepActs (lz : Resample) (env : Env) (src : Image) (e : String × Nat) :
    List Act :=
  [.mkdir (RES env ++ [e.1]),
   .write (iconPath env e.1) (.image "PNG" (Image.resize lz src (e.2, e.2))),
   .write (roundPath env e.1) (.image "PNG" (make_round lz (Image.copy src) e.2))]

/-- The operations of a successful loop over the given density entries. -/
def loopActsOf (lz : Resample) (env : Env) (src : Image)
    (ds : List (String × Nat)) : List Act :=
  ds.foldr (fun e acc => stepActs lz env src e ++ acc) []

/-- The operations of a successful full loop. -/
def loopActs (lz : Resample) (env : Env) (src : Image) : List Act :=
  loopActsOf lz env src DENSITIES

/-- The operations of a successful full run: the loop, then the legacy
removal when the XML existed beforehand. -/
def plannedActs (lz : Resample) (env : Env) (src : Image) (b : Bool) :
    List Act :=
  loopActs lz env src ++ if b then [.remove (xmlPath env)] else []

/-- The filesystem a successful run leaves behind, given the cropped
source image. -/
def finalFS (lz : Resample) (env : Env) (src : Image) (fs : FS) : FS :=
  let fsL := applyActs fs (loopActs lz env src)
  if fsL.hasFile (xmlPath env) then fsL.removeFile (xmlPath env) else fsL

/-- The ten output file paths, in table order. -/
def outputPaths (env : Env) : List Path :=
  DENSITIES.foldr (fun e acc => iconPath env e.1 :: roundPath env e.1 :: acc) []

/-- The permissions every run of this verification's witnesses uses:
everything allowed. -/
def permAll : Perm := ⟨fun _ => true, fun _ => true, fun _ => true, fun _ => true⟩

/-- Permissions denying everything: the failure witnesses use them. -/
def permNone : Perm := ⟨fun _ => false, fun _ => false, fun _ => false, fun _ => false⟩

/-- Sufficient permissions for a full run: source readable, every density
directory creatable, every output writable. -/
def permFor (perm : Perm) (env : Env) : Prop :=
  perm.canRead (SRC env) = true ∧
  ∀ e ∈ DENSITIES,
    perm.canMkdir (RES env ++ [e.1]) = true ∧
    perm.canWrite (iconPath env e.1) = true ∧
    perm.canWrite (roundPath env e.1) = true

/-- A concrete test image: `w × h`, every pixel an opaque mid grey. -/
def mkImg (w h : Nat) : Image where
  width := w
  height := h
  px _ _ := ⟨90, 100, 110, 255⟩

/-- A concrete sampler standing for LANCZOS on an opaque image: constant
opaque output (resampling a constant image reproduces the constant). -/
def lzOpaque : Resample := fun _ _ _ _ => ⟨90, 100, 110, 255⟩

/-- A concrete sampler standing for LANCZOS on a fully transparent image:
the weighted average of `(0,0,0,0)` pixels is `(0,0,0,0)`. -/
def lzClear : Resample := fun _ _ _ _ => ⟨0, 0, 0, 0⟩

/-- A concrete test environment: `HOME` set. -/
def envT : Env := ⟨[("HOME", ["data", "home", "u0"])], ["etc", "passwd-home"]⟩

/-- A concrete test filesystem: the 1000×600 source photograph and the
legacy XML file are present, nothing else. -/
def fsT : FS :=
  ⟨[(SRC envT, .image "RGB" (mkImg 1000 600)), (xmlPath envT, .text "<xml/>")],
   [], []⟩

/-- A concrete environment with `HOME=/home/alice`. -/
def envA : Env := ⟨[("HOME", ["home", "alice"])], ["srv", "fallback"]⟩

/-- The same environment as `envA` except for an unrelated extra variable:
the resolved home directory is unchanged. -/
def envA2 : Env :=
  ⟨[("LANG", ["C"]), ("HOME", ["home", "alice"])], ["srv", "fallback"]⟩

/-- A concrete environment that differs from `envA` only in the value of
`HOME`. -/
def envB : Env := ⟨[("HOME", ["home", "bob"])], ["srv", "fallback"]⟩

/-- A pixel whose center lies in the inscribed disc is within the `s × s`
bounds. -/
lemma mem_disc_lt (s x y : Nat)
    (h : (2 * (x : Int) + 1 - s) ^ 2 + (2 * (y : Int) + 1 - s) ^ 2 ≤ (s : Int) ^ 2) :
    x < s ∧ y < s := by
  constructor
  · by_contra hx
    push_neg at hx
    have hsx : (s : Int) + 1 ≤ 2 * (x : Int) + 1 - s := by
      have : (s : Int) ≤ (x : Int) := by exact_mod_cast hx
      linarith
    have h1 : ((s : Int) + 1) ^ 2 ≤ (2 * (x : Int) + 1 - s) ^ 2 := by
      have h0 : (0 : Int) ≤ (s : Int) + 1 := by positivity
      exact pow_le_pow_left₀ h0 hsx 2
    nlinarith [sq_nonneg (2 * (y : Int) + 1 - s)]
  · by_contra hy
    push_neg at hy
    have hsy : (s : Int) + 1 ≤ 2 * (y : Int) + 1 - s := by
      have : (s : Int) ≤ (y : Int) := by exact_mod_cast hy
      linarith
    have h1 : ((s : Int) + 1) ^ 2 ≤ (2 * (y : Int) + 1 - s) ^ 2 := by
      have h0 : (0 : Int) ≤ (s : Int) + 1 := by positivity
      exact pow_le_pow_left₀ h0 hsy 2
    nlinarith [sq_nonneg (2 * (x : Int) + 1 - s)]

/-- The center pixel `(s/2, s/2)` of an `s × s` canvas, `s > 0`, has its
center in the inscribed disc. -/
lemma center_mem_disc (s : Nat) (hs : 0 < s) :
    (2 * ((s / 2 : Nat) : Int) + 1 - s) ^ 2 + (2 * ((s / 2 : Nat) : Int) + 1 - s) ^ 2
      ≤ (s : Int) ^ 2 := by
  have h2 : 2 * (s / 2) ≤ s ∧ s ≤ 2 * (s / 2) + 1 := by omega
  have hcast : ((2 * (s / 2) : Nat) : Int) = 2 * ((s / 2 : Nat) : Int) := by push_cast; ring
  have hlo : (2 * ((s / 2 : Nat) : Int) + 1 - s) = 1 ∨ (2 * ((s / 2 : Nat) : Int) + 1 - s) = 0 := by
    omega
  rcases hlo with h | h
  · rw [h]
    have : s = 2 * (s / 2) := by omega
    have hs2 : 2 ≤ s := by omega
    have : (2 : Int) ≤ (s : Int) := by exact_mod_cast hs2
    nlinarith
  · rw [h]
    have : (0 : Int) < (s : Int) := by exact_mod_cast hs
    nlinarith

/-- The round-masked image pixel function, unfolded. -/
lemma make_round_px (lz : Resample) (img : Image) (s x y : Nat) :
    (make_round lz img s).px x y =
      if x < s ∧ y < s then
        if roundMask s x y = 255 then lz img (s, s) x y
        else if roundMask s x y = 0 then ⟨0, 0, 0, 0⟩
        else blendPx ⟨0, 0, 0, 0⟩ (lz img (s, s) x y) (roundMask s x y)
      else ⟨0, 0, 0, 0⟩ := rfl

/-- The centered square crop always has width `min w h`. -/
lemma make_square_width (img : Image) :
    (make_square img).width = min img.width img.height := by
  simp [make_square, Image.crop]

/-- The centered square crop always has height `min w h`. -/
lemma make_square_height (img : Image) :
    (make_square img).height = min img.width img.height := by
  simp [make_square, Image.crop]

/-- C2: the square cropper returns the sub-image of side `min(w, h)` whose
top-left corner is `((w - side)/2, (h - side)/2)` (integer floor division):
its dimensions are `side × side` and pixel `(x, y)` of the result is pixel
`(left + x, top + y)` of the source.  The embedded `make_square` is a total
pure function, so it succeeds on every image and has no side effects. -/
theorem c2_make_square_spec (img : Image) :
    (make_square img).width = min img.width img.height ∧
    (make_square img).height = min img.width img.height ∧
    ∀ x y : Nat, (make_square img).px x y =
      img.px ((img.width - min img.width img.height) / 2 + x)
             ((img.height - min img.width img.height) / 2 + y) :=
  ⟨make_square_width img, make_square_height img, fun _ _ => rfl⟩

/-- C1 (amended): for every input image whose LANCZOS resize to `s × s` is
fully opaque (the case in this program: the source is a JPEG converted to
RGBA, so every alpha value is 255 and resampling preserves the constant
alpha channel), `make_round` returns an `s × s` image whose alpha is 0 at
every pixel whose center lies strictly outside the circle inscribed in the
`s × s` square (center `(s/2, s/2)`, radius `s/2`), is 255 at every pixel
whose center lies in that circle, and is strictly positive at the center
pixel `(s/2, s/2)`. -/
theorem c1_make_round_geometry (lz : Resample) (img : Image) (s : Nat) (hs : 0 < s)
    (hA : ∀ x y : Nat, (lz img (s, s) x y).a = 255) :
    (make_round lz img s).width = s ∧ (make_round lz img s).height = s ∧
    (∀ x y : Nat,
      (s : Int) ^ 2 < (2 * (x : Int) + 1 - s) ^ 2 + (2 * (y : Int) + 1 - s) ^ 2 →
      ((make_round lz img s).px x y).a = 0) ∧
    (∀ x y : Nat,
      (2 * (x : Int) + 1 - s) ^ 2 + (2 * (y : Int) + 1 - s) ^ 2 ≤ (s : Int) ^ 2 →
      ((make_round lz img s).px x y).a = 255) ∧
    0 < ((make_round lz img s).px (s / 2) (s / 2)).a := by
  have hin : ∀ x y : Nat,
      (2 * (x : Int) + 1 - s) ^ 2 + (2 * (y : Int) + 1 - s) ^ 2 ≤ (s : Int) ^ 2 →
      ((make_round lz img s).px x y).a = 255 := by
    intro x y h
    have hb := mem_disc_lt s x y h
    have hm : roundMask s x y = 255 := by unfold roundMask; exact if_pos h
    rw [make_round_px]
    simp only [hb.1, hb.2, and_self, if_true, hm, if_pos]
    exact hA x y
  have hout : ∀ x y : Nat,
      (s : Int) ^ 2 < (2 * (x : Int) + 1 - s) ^ 2 + (2 * (y : Int) + 1 - s) ^ 2 →
      ((make_round lz img s).px x y).a = 0 := by
    intro x y h
    have hm : roundMask s x y = 0 := by unfold roundMask; exact if_neg (not_le.mpr h)
    rw [make_round_px]
    by_cases hb : x < s ∧ y < s
    · simp [hb, hm]
    · simp [hb]
  refine ⟨rfl, rfl, hout, hin, ?_⟩
  rw [hin (s / 2) (s / 2) (center_mem_disc s hs)]
  norm_num

/-- Witness for C1: a concrete opaque 2×2 source at target size 4: pixel
`(0,0)` (center strictly outside the circle) gets alpha 0, pixel `(2,2)`
(center inside) gets alpha 255, and the center pixel is opaque. -/
theorem c1_make_round_geometry_check :
    (make_round lzOpaque (mkImg 2 2) 4).width = 4 ∧
    ((make_round lzOpaque (mkImg 2 2) 4).px 0 0).a = 0 ∧
    ((make_round lzOpaque (mkImg 2 2) 4).px 2 2).a = 255 ∧
    0 < ((make_round lzOpaque (mkImg 2 2) 4).px (4 / 2) (4 / 2)).a := by
  have h := c1_make_round_geometry lzOpaque (mkImg 2 2) 4 (by decide) (fun _ _ => rfl)
  exact ⟨h.1, h.2.2.1 0 0 (by decide), h.2.2.2.1 2 2 (by decide), h.2.2.2.2⟩

/-- Counterexample to C1 as stated: the claim quantifies over every input
image, but an input whose pixels are fully transparent (alpha 0 everywhere,
so its LANCZOS resize is transparent as well — `lzClear` is the resampler's
value on such an image, a weighted average of `(0,0,0,0)` pixels) yields a
round output whose center pixel has alpha 0, not strictly positive: the
mask selects the resized pixel as is, including its alpha channel. -/
theorem c1_center_transparent_cex :
    ¬ 0 < ((make_round lzClear (mkImg 2 2) 4).px (4 / 2) (4 / 2)).a := by decide

/-- C9: the circular mask only takes the values 0 and 255 — no anti-aliased
intermediate values — so every pixel of the round output is either fully
transparent `(0,0,0,0)` or exactly the corresponding pixel of the
LANCZOS-resized input: the circular edge is hard, never partially blended. -/
theorem c9_hard_edge (lz : Resample) (img : Image) (s : Nat) :
    (∀ x y : Nat, roundMask s x y = 0 ∨ roundMask s x y = 255) ∧
    (∀ x y : Nat, (make_round lz img s).px x y = ⟨0, 0, 0, 0⟩ ∨
      (make_round lz img s).px x y = (Image.resize lz img (s, s)).px x y) := by
  have hbin : ∀ x y : Nat, roundMask s x y = 0 ∨ roundMask s x y = 255 := by
    intro x y; unfold roundMask; split
    · right; rfl
    · left; rfl
  refine ⟨hbin, fun x y => ?_⟩
  rw [make_round_px]
  by_cases hb : x < s ∧ y < s
  · rcases hbin x y with hm | hm
    · left; simp [hb, hm]
    · right; simp [hb, hm, Image.resize]
  · left; simp [hb]

/-- C10: the square cropper is idempotent — on an image whose width equals
its height it returns an image with the same dimensions and pixel content
(the image itself, in the pure embedding), so applying it twice equals
applying it once. -/
theorem c10_make_square_idem :
    (∀ img : Image, img.width = img.height → make_square img = img) ∧
    (∀ img : Image, make_square (make_square img) = make_square img) := by
  have h1 : ∀ img : Image, img.width = img.height → make_square img = img := by
    intro img h
    ext x y
    · simp [make_square, Image.crop, h]
    · simp [make_square, Image.crop, h]
    · simp [make_square, Image.crop, h]
  refine ⟨h1, fun img => ?_⟩
  exact h1 (make_square img) (by rw [make_square_width, make_square_height])

/-- Reading through a write: the write shadows exactly its own path. -/
lemma FS.read_write (fs : FS) (p : Path) (d : FileData) (q : Path) :
    (fs.write p d).read q = if q = p then some d else fs.read q := rfl

/-- Reading is unaffected by directory creation. -/
lemma FS.read_addDir (fs : FS) (p q : Path) :
    (fs.addDir p).read q = fs.read q := rfl

/-- Erasure of a path removes exactly that path from the lookup. -/
lemma lookupFile_erase (l : List (Path × FileData)) (p q : Path) :
    lookupFile (eraseFile l p) q = if q = p then none else lookupFile l q := by
  induction l with
  | nil => simp [eraseFile, lookupFile]
  | cons hd tl ih =>
    obtain ⟨r, d⟩ := hd
    simp only [eraseFile, lookupFile]
    by_cases hpr : p = r <;> by_cases hqp : q = p <;> by_cases hqr : q = r <;>
      simp_all [lookupFile]

/-- Reading through a removal. -/
lemma FS.read_removeFile (fs : FS) (p q : Path) :
    (fs.removeFile p).read q = if q = p then none else fs.read q :=
  lookupFile_erase fs.files p q

/-- File existence through a write. -/
lemma FS.hasFile_write (fs : FS) (p : Path) (d : FileData) (q : Path) :
    (fs.write p d).hasFile q = if q = p then true else fs.hasFile q := by
  unfold FS.hasFile
  rw [FS.read_write]
  split <;> rfl

/-- File existence through a removal. -/
lemma FS.hasFile_removeFile (fs : FS) (p q : Path) :
    (fs.removeFile p).hasFile q = if q = p then false else fs.hasFile q := by
  unfold FS.hasFile
  rw [FS.read_removeFile]
  split <;> rfl

/-- File existence is unaffected by directory creation. -/
lemma FS.hasFile_addDir (fs : FS) (p q : Path) :
    (fs.addDir p).hasFile q = fs.hasFile q := rfl

/-- Folding an empty act list. -/
lemma applyActs_nil (fs : FS) : applyActs fs [] = fs := rfl

/-- Folding an act list one step. -/
lemma applyActs_cons (fs : FS) (a : Act) (l : List Act) :
    applyActs fs (a :: l) = applyActs (applyAct fs a) l := rfl

/-- Folding a concatenation of act lists. -/
lemma applyActs_append (fs : FS) (l₁ l₂ : List Act) :
    applyActs fs (l₁ ++ l₂) = applyActs (applyActs fs l₁) l₂ := by
  simp [applyActs, List.foldl_append]

/-- Each act appends itself to the journal. -/
lemma log_applyAct (fs : FS) (a : Act) : (applyAct fs a).log = fs.log ++ [a] := by
  cases a <;> rfl

/-- The journal of a folded act list is the old journal plus the list. -/
lemma log_applyActs (fs : FS) (l : List Act) :
    (applyActs fs l).log = fs.log ++ l := by
  induction l generalizing fs with
  | nil => simp [applyActs]
  | cons a l ih => rw [applyActs_cons, ih, log_applyAct]; simp

/-- The standard icon path, normalized to home-plus-components. -/
lemma iconPath_eq (env : Env) (d : String) :
    iconPath env d =
      env.getHome ++ ["aigentik-android", "app", "src", "main", "res", d, "ic_launcher.png"] := by
  simp [iconPath, RES, expandUser, List.append_assoc]

/-- The round icon path, normalized to home-plus-components. -/
lemma roundPath_eq (env : Env) (d : String) :
    roundPath env d =
      env.getHome ++ ["aigentik-android", "app", "src", "main", "res", d, "ic_launcher_round.png"] := by
  simp [roundPath, RES, expandUser, List.append_assoc]

/-- The legacy XML path, normalized to home-plus-components. -/
lemma xmlPath_eq (env : Env) :
    xmlPath env =
      env.getHome ++ ["aigentik-android", "app", "src", "main", "res", "drawable", "ic_launcher.xml"] := by
  simp [xmlPath, RES, expandUser, List.append_assoc]

/-- The source path, normalized to home-plus-components. -/
lemma SRC_eq (env : Env) :
    SRC env = env.getHome ++ ["storage", "downloads", "aigentik_app_icon.jpg"] := rfl

/-- A standard icon path never collides with the legacy XML path. -/
lemma iconPath_ne_xmlPath (env : Env) (d : String) : iconPath env d ≠ xmlPath env := by
  intro h
  rw [iconPath_eq, xmlPath_eq] at h
  have h2 := List.append_cancel_left h
  simp at h2

/-- A round icon path never collides with the legacy XML path. -/
lemma roundPath_ne_xmlPath (env : Env) (d : String) : roundPath env d ≠ xmlPath env := by
  intro h
  rw [roundPath_eq, xmlPath_eq] at h
  have h2 := List.append_cancel_left h
  simp at h2

/-- A standard icon path never collides with the source path. -/
lemma iconPath_ne_SRC (env : Env) (d : String) : iconPath env d ≠ SRC env := by
  intro h
  rw [iconPath_eq, SRC_eq] at h
  have h2 := List.append_cancel_left h
  simp at h2

/-- A round icon path never collides with the source path. -/
lemma roundPath_ne_SRC (env : Env) (d : String) : roundPath env d ≠ SRC env := by
  intro h
  rw [roundPath_eq, SRC_eq] at h
  have h2 := List.append_cancel_left h
  simp at h2

/-- The legacy XML path never collides with the source path. -/
lemma xmlPath_ne_SRC (env : Env) : xmlPath env ≠ SRC env := by
  intro h
  rw [xmlPath_eq, SRC_eq] at h
  have h2 := List.append_cancel_left h
  simp at h2

/-- Membership in the loop's act list comes from some density entry's step. -/
lemma mem_loopActsOf {lz : Resample} {env : Env} {src : Image}
    {ds : List (String × Nat)} {a : Act} :
    a ∈ loopActsOf lz env src ds ↔ ∃ e ∈ ds, a ∈ stepActs lz env src e := by
  induction ds with
  | nil => simp [loopActsOf]
  | cons e ds ih =>
    rw [show loopActsOf lz env src (e :: ds) =
        stepActs lz env src e ++ loopActsOf lz env src ds from rfl,
      List.mem_append, ih]
    simp

/-- The loop performs no removal. -/
lemma loopActsOf_no_remove {lz : Resample} {env : Env} {src : Image}
    {ds : List (String × Nat)} {p : Path} :
    Act.remove p ∉ loopActsOf lz env src ds := by
  intro h
  rw [mem_loopActsOf] at h
  obtain ⟨e, _, ha⟩ := h
  simp [stepActs] at ha

/-- Every write of the loop targets an icon path of one of its entries. -/
lemma write_mem_loopActsOf {lz : Resample} {env : Env} {src : Image}
    {ds : List (String × Nat)} {p : Path} {d : FileData}
    (h : Act.write p d ∈ loopActsOf lz env src ds) :
    ∃ e ∈ ds, p = iconPath env e.1 ∨ p = roundPath env e.1 := by
  rw [mem_loopActsOf] at h
  obtain ⟨e, he, ha⟩ := h
  refine ⟨e, he, ?_⟩
  simp [stepActs] at ha
  rcases ha with ⟨hp, _⟩ | ⟨hp, _⟩
  · exact Or.inl hp
  · exact Or.inr hp

/-- Reading at a path no act of the list writes or removes is unchanged. -/
lemma read_applyActs_ne (fs : FS) (l : List Act) (q : Path)
    (hw : ∀ p d, Act.write p d ∈ l → p ≠ q)
    (hr : ∀ p, Act.remove p ∈ l → p ≠ q) :
    (applyActs fs l).read q = fs.read q := by
  induction l generalizing fs with
  | nil => rfl
  | cons a l ih =>
    rw [applyActs_cons]
    have tailw : ∀ p d, Act.write p d ∈ l → p ≠ q :=
      fun p d hm => hw p d (List.mem_cons_of_mem a hm)
    have tailr : ∀ p, Act.remove p ∈ l → p ≠ q :=
      fun p hm => hr p (List.mem_cons_of_mem a hm)
    cases a with
    | mkdir p => rw [ih _ tailw tailr]; rfl
    | write p d =>
      rw [ih _ tailw tailr]
      simp only [applyAct]
      rw [FS.read_write,
        if_neg (fun (h : q = p) => hw p d (List.mem_cons_self _ _) h.symm)]
    | remove p =>
      rw [ih _ tailw tailr]
      simp only [applyAct]
      rw [FS.read_removeFile,
        if_neg (fun (h : q = p) => hr p (List.mem_cons_self _ _) h.symm)]

/-- Directory existence survives every act. -/
lemma hasDir_applyAct_mono (fs : FS) (a : Act) (p : Path)
    (h : fs.hasDir p = true) : (applyAct fs a).hasDir p = true := by
  cases a with
  | mkdir q =>
    simp only [applyAct, FS.hasDir, FS.addDir, memPath]
    split
    · rfl
    · exact h
  | write q d => exact h
  | remove q => exact h

/-- Directory existence survives a whole act list. -/
lemma hasDir_applyActs_mono (fs : FS) (l : List Act) (p : Path)
    (h : fs.hasDir p = true) : (applyActs fs l).hasDir p = true := by
  induction l generalizing fs with
  | nil => exact h
  | cons a l ih => exact ih _ (hasDir_applyAct_mono fs a p h)

/-- A directory created by some act of the list exists afterwards. -/
lemma hasDir_applyActs_of_mem (fs : FS) (l : List Act) (p : Path)
    (h : Act.mkdir p ∈ l) : (applyActs fs l).hasDir p = true := by
  induction l generalizing fs with
  | nil => cases h
  | cons a l ih =>
    rw [applyActs_cons]
    rcases List.mem_cons.mp h with rfl | hm
    · apply hasDir_applyActs_mono
      simp [applyAct, FS.hasDir, FS.addDir, memPath]
    · exact ih _ hm

/-- A present file survives an act list containing no removal of its path. -/
lemma hasFile_applyActs_mono (fs : FS) (l : List Act) (p : Path)
    (hf : fs.hasFile p = true)
    (hr : ∀ q, Act.remove q ∈ l → q ≠ p) :
    (applyActs fs l).hasFile p = true := by
  induction l generalizing fs with
  | nil => exact hf
  | cons a l ih =>
    rw [applyActs_cons]
    have tailr : ∀ q, Act.remove q ∈ l → q ≠ p :=
      fun q hm => hr q (List.mem_cons_of_mem a hm)
    cases a with
    | mkdir q => exact ih _ hf tailr
    | write q d =>
      apply ih _ _ tailr
      simp only [applyAct]
      rw [FS.hasFile_write]
      split
      · rfl
      · exact hf
    | remove q =>
      apply ih _ _ tailr
      simp only [applyAct]
      rw [FS.hasFile_removeFile,
        if_neg (fun (h : p = q) => hr q (List.mem_cons_self _ _) h.symm)]
      exact hf

/-- A file some act of the list writes exists afterwards, provided no act
removes its path. -/
lemma hasFile_applyActs_of_write (fs : FS) (l : List Act) (p : Path) (d : FileData)
    (hw : Act.write p d ∈ l)
    (hr : ∀ q, Act.remove q ∈ l → q ≠ p) :
    (applyActs fs l).hasFile p = true := by
  induction l generalizing fs with
  | nil => cases hw
  | cons a l ih =>
    rw [applyActs_cons]
    have tailr : ∀ q, Act.remove q ∈ l → q ≠ p :=
      fun q hm => hr q (List.mem_cons_of_mem a hm)
    rcases List.mem_cons.mp hw with rfl | hm
    · apply hasFile_applyActs_mono _ _ _ _ tailr
      simp only [applyAct]
      rw [FS.hasFile_write, if_pos rfl]
    · exact ih _ hm tailr

/-- Binding a successful computation reduces. -/
lemma ok_bind {α β : Type} (a : α) (f : α → Except (Err × FS) β) :
    (Except.ok a >>= f) = f a := rfl

/-- Inversion of a successful bind. -/
lemma bind_ok {α β : Type} {x : Except (Err × FS) α} {f : α → Except (Err × FS) β}
    {b : β} (h : (x >>= f) = .ok b) : ∃ a, x = .ok a ∧ f a = .ok b := by
  cases x with
  | ok a => exact ⟨a, rfl, h⟩
  | error e => simp [Bind.bind, Except.bind] at h

/-- Inversion of a failing bind: the failure is in the first computation or
in the continuation. -/
lemma bind_err {α β : Type} {x : Except (Err × FS) α} {f : α → Except (Err × FS) β}
    {E : Err × FS} (h : (x >>= f) = .error E) :
    x = .error E ∨ ∃ a, x = .ok a ∧ f a = .error E := by
  cases x with
  | ok a => exact Or.inr ⟨a, rfl, h⟩
  | error e =>
    have h' : (Except.error e : Except (Err × FS) β) = Except.error E := h
    cases h'
    exact Or.inl rfl

/-- Inversion of a successful image open. -/
lemma openImage_ok {perm : Perm} {fs : FS} {p : Path} {mi : String × Image}
    (h : openImage perm fs p = .ok mi) :
    perm.canRead p = true ∧ fs.read p = some (.image mi.1 mi.2) := by
  unfold openImage at h
  cases hcr : perm.canRead p with
  | false => rw [hcr] at h; simp at h
  | true =>
    rw [hcr] at h
    simp only [if_pos] at h
    split at h
    · cases h; exact ⟨rfl, by assumption⟩
    · cases h
    · cases h

/-- Inversion of a failing image open: the filesystem is untouched. -/
lemma openImage_err {perm : Perm} {fs : FS} {p : Path} {E : Err × FS}
    (h : openImage perm fs p = .error E) : E.2 = fs := by
  unfold openImage at h
  split at h
  · split at h
    · cases h
    · cases h; rfl
    · cases h; rfl
  · cases h; rfl

/-- Inversion of a successful directory creation. -/
lemma makedirs_ok {perm : Perm} {fs : FS} {p : Path} {fs' : FS}
    (h : makedirs perm fs p = .ok fs') :
    fs' = fs.addDir p ∧ (fs.hasDir p || perm.canMkdir p) = true := by
  unfold makedirs at h
  split at h
  · cases h; exact ⟨rfl, by assumption⟩
  · cases h

/-- Inversion of a failing directory creation: the filesystem is untouched. -/
lemma makedirs_err {perm : Perm} {fs : FS} {p : Path} {E : Err × FS}
    (h : makedirs perm fs p = .error E) : E.2 = fs := by
  unfold makedirs at h
  split at h
  · cases h
  · cases h; rfl

/-- Directory creation succeeds when the directory exists or is creatable. -/
lemma makedirs_eq_ok {perm : Perm} {fs : FS} {p : Path}
    (hc : (fs.hasDir p || perm.canMkdir p) = true) :
    makedirs perm fs p = .ok (fs.addDir p) := by
  unfold makedirs
  rw [if_pos hc]

/-- Inversion of a successful save. -/
lemma savePNG_ok {perm : Perm} {fs : FS} {p : Path} {img : Image} {fs' : FS}
    (h : savePNG perm fs p img = .ok fs') :
    fs' = fs.write p (.image "PNG" img) ∧ perm.canWrite p = true := by
  unfold savePNG at h
  split at h
  · cases h; exact ⟨rfl, by assumption⟩
  · cases h

/-- Inversion of a failing save: the filesystem is untouched. -/
lemma savePNG_err {perm : Perm} {fs : FS} {p : Path} {img : Image} {E : Err × FS}
    (h : savePNG perm fs p img = .error E) : E.2 = fs := by
  unfold savePNG at h
  split at h
  · cases h
  · cases h; rfl

/-- A save succeeds when the path is writable. -/
lemma savePNG_eq_ok {perm : Perm} {fs : FS} {p : Path} {img : Image}
    (hw : perm.canWrite p = true) :
    savePNG perm fs p img = .ok (fs.write p (.image "PNG" img)) := by
  unfold savePNG
  rw [if_pos hw]

/-- Inversion of a successful removal. -/
lemma removeFileOp_ok {perm : Perm} {fs : FS} {p : Path} {fs' : FS}
    (h : removeFileOp perm fs p = .ok fs') :
    fs' = fs.removeFile p ∧ perm.canRemove p = true ∧ fs.hasFile p = true := by
  unfold removeFileOp at h
  split at h
  · split at h
    · cases h; exact ⟨rfl, by assumption, by assumption⟩
    · cases h
  · cases h

/-- Inversion of a failing removal: the filesystem is untouched. -/
lemma removeFileOp_err {perm : Perm} {fs : FS} {p : Path} {E : Err × FS}
    (h : removeFileOp perm fs p = .error E) : E.2 = fs := by
  unfold removeFileOp at h
  split at h
  · split at h
    · cases h
    · cases h; rfl
  · cases h; rfl

/-- A removal succeeds on a present, removable file. -/
lemma removeFileOp_eq_ok {perm : Perm} {fs : FS} {p : Path}
    (hc : perm.canRemove p = true) (hf : fs.hasFile p = true) :
    removeFileOp perm fs p = .ok (fs.removeFile p) := by
  unfold removeFileOp
  rw [if_pos hc, if_pos hf]

/-- Inversion of a successful loop iteration: it performs exactly its three
acts, and the two output paths were writable. -/
lemma densityStep_ok {perm : Perm} {lz : Resample} {env : Env} {src : Image}
    {fs : FS} {e : String × Nat} {fs' : FS}
    (h : densityStep perm lz env src fs e = .ok fs') :
    fs' = applyActs fs (stepActs lz env src e) ∧
    perm.canWrite (iconPath env e.1) = true ∧
    perm.canWrite (roundPath env e.1) = true := by
  unfold densityStep at h
  rcases bind_ok h with ⟨fs₁, h₁, h₂⟩
  rcases bind_ok h₂ with ⟨fs₂, h₃, h₄⟩
  obtain ⟨hfs₁, _⟩ := makedirs_ok h₁
  obtain ⟨hfs₂, hw₁⟩ := savePNG_ok h₃
  obtain ⟨hfs', hw₂⟩ := savePNG_ok h₄
  subst hfs₁ hfs₂ hfs'
  exact ⟨rfl, hw₁, hw₂⟩

/-- A loop iteration succeeds when its directory is available and its two
output paths are writable. -/
lemma densityStep_eq_ok {perm : Perm} {lz : Resample} {env : Env} {src : Image}
    {fs : FS} {e : String × Nat}
    (hc : (fs.hasDir (RES env ++ [e.1]) || perm.canMkdir (RES env ++ [e.1])) = true)
    (hw₁ : perm.canWrite (iconPath env e.1) = true)
    (hw₂ : perm.canWrite (roundPath env e.1) = true) :
    densityStep perm lz env src fs e = .ok (applyActs fs (stepActs lz env src e)) := by
  unfold densityStep
  dsimp only
  rw [makedirs_eq_ok hc, ok_bind,
    savePNG_eq_ok
      (show perm.canWrite (RES env ++ [e.1] ++ ["ic_launcher.png"]) = true from hw₁),
    ok_bind,
    savePNG_eq_ok
      (show perm.canWrite (RES env ++ [e.1] ++ ["ic_launcher_round.png"]) = true from hw₂)]
  rfl

/-- Inversion of a failing loop iteration: the state at the failure is the
application of a proper prefix of the iteration's three acts. -/
lemma densityStep_err {perm : Perm} {lz : Resample} {env : Env} {src : Image}
    {fs : FS} {e : String × Nat} {E : Err × FS}
    (h : densityStep perm lz env src fs e = .error E) :
    ∃ n, n < 3 ∧ E.2 = applyActs fs ((stepActs lz env src e).take n) := by
  unfold densityStep at h
  rcases bind_err h with h₁ | ⟨fs₁, h₁, h₂⟩
  · exact ⟨0, by omega, (makedirs_err h₁).symm ▸ rfl⟩
  · obtain ⟨hfs₁, _⟩ := makedirs_ok h₁
    subst hfs₁
    rcases bind_err h₂ with h₃ | ⟨fs₂, h₃, h₄⟩
    · exact ⟨1, by omega, (savePNG_err h₃).symm ▸ rfl⟩
    · obtain ⟨hfs₂, _⟩ := savePNG_ok h₃
      subst hfs₂
      exact ⟨2, by omega, (savePNG_err h₄).symm ▸ rfl⟩

/-- Inversion of a successful loop: it performs exactly its planned acts,
and every listed output path was writable. -/
lemma foldlM_ok {perm : Perm} {lz : Resample} {env : Env} {src : Image} :
    ∀ {ds : List (String × Nat)} {fs fs' : FS},
    List.foldlM (densityStep perm lz env src) fs ds = .ok fs' →
    fs' = applyActs fs (loopActsOf lz env src ds) ∧
    ∀ e ∈ ds, perm.canWrite (iconPath env e.1) = true ∧
      perm.canWrite (roundPath env e.1) = true := by
  intro ds
  induction ds with
  | nil =>
    intro fs fs' h
    cases h
    exact ⟨rfl, by simp⟩
  | cons e ds ih =>
    intro fs fs' h
    rw [show List.foldlM (densityStep perm lz env src) fs (e :: ds) =
        densityStep perm lz env src fs e >>=
          (fun x => List.foldlM (densityStep perm lz env src) x ds) from rfl] at h
    rcases bind_ok h with ⟨fs₁, h₁, h₂⟩
    obtain ⟨hfs₁, hw₁, hw₂⟩ := densityStep_ok h₁
    obtain ⟨hshape, hperm⟩ := ih h₂
    subst hfs₁
    refine ⟨?_, ?_⟩
    · rw [hshape,
        show loopActsOf lz env src (e :: ds) =
          stepActs lz env src e ++ loopActsOf lz env src ds from rfl,
        applyActs_append]
    · intro e' he'
      rcases List.mem_cons.mp he' with rfl | hm
      · exact ⟨hw₁, hw₂⟩
      · exact hperm e' hm

/-- The loop succeeds when every listed directory is available and every
listed output path is writable. -/
lemma foldlM_eq_ok {perm : Perm} {lz : Resample} {env : Env} {src : Image} :
    ∀ {ds : List (String × Nat)} {fs : FS},
    (∀ e ∈ ds, (fs.hasDir (RES env ++ [e.1]) = true ∨
        perm.canMkdir (RES env ++ [e.1]) = true) ∧
      perm.canWrite (iconPath env e.1) = true ∧
      perm.canWrite (roundPath env e.1) = true) →
    List.foldlM (densityStep perm lz env src) fs ds =
      .ok (applyActs fs (loopActsOf lz env src ds)) := by
  intro ds
  induction ds with
  | nil => intro fs _; rfl
  | cons e ds ih =>
    intro fs hp
    obtain ⟨hmk, hw₁, hw₂⟩ := hp e (List.mem_cons_self _ _)
    have hc : (fs.hasDir (RES env ++ [e.1]) || perm.canMkdir (RES env ++ [e.1])) = true := by
      rcases hmk with h | h <;> simp [h]
    rw [show List.foldlM (densityStep perm lz env src) fs (e :: ds) =
        densityStep perm lz env src fs e >>=
          (fun x => List.foldlM (densityStep perm lz env src) x ds) from rfl,
      densityStep_eq_ok hc hw₁ hw₂, ok_bind]
    have hp' : ∀ e' ∈ ds,
        ((applyActs fs (stepActs lz env src e)).hasDir (RES env ++ [e'.1]) = true ∨
          perm.canMkdir (RES env ++ [e'.1]) = true) ∧
        perm.canWrite (iconPath env e'.1) = true ∧
        perm.canWrite (roundPath env e'.1) = true := by
      intro e' he'
      obtain ⟨hmk', hw₁', hw₂'⟩ := hp e' (List.mem_cons_of_mem e he')
      refine ⟨?_, hw₁', hw₂'⟩
      rcases hmk' with h | h
      · exact Or.inl (hasDir_applyActs_mono _ _ _ h)
      · exact Or.inr h
    rw [ih hp',
      show loopActsOf lz env src (e :: ds) =
        stepActs lz env src e ++ loopActsOf lz env src ds from rfl,
      applyActs_append]

/-- Inversion of a failing loop: the state at the failure is the
application of a proper prefix of the loop's planned acts. -/
lemma foldlM_err {perm : Perm} {lz : Resample} {env : Env} {src : Image} :
    ∀ {ds : List (String × Nat)} {fs : FS} {E : Err × FS},
    List.foldlM (densityStep perm lz env src) fs ds = .error E →
    ∃ n, n < (loopActsOf lz env src ds).length ∧
      E.2 = applyActs fs ((loopActsOf lz env src ds).take n) := by
  intro ds
  induction ds with
  | nil => intro fs E h; cases h
  | cons e ds ih =>
    intro fs E h
    rw [show List.foldlM (densityStep perm lz env src) fs (e :: ds) =
        densityStep perm lz env src fs e >>=
          (fun x => List.foldlM (densityStep perm lz env src) x ds) from rfl] at h
    have hsplit : loopActsOf lz env src (e :: ds) =
        stepActs lz env src e ++ loopActsOf lz env src ds := rfl
    have hsl : (stepActs lz env src e).length = 3 := rfl
    rcases bind_err h with h₁ | ⟨fs₁, h₁, h₂⟩
    · obtain ⟨n, hn, hE⟩ := densityStep_err h₁
      refine ⟨n, ?_, ?_⟩
      · rw [hsplit, List.length_append, hsl]; omega
      · rw [hsplit, List.take_append_of_le_length (by omega), hE]
    · obtain ⟨hfs₁, _⟩ := densityStep_ok h₁
      subst hfs₁
      obtain ⟨n, hn, hE⟩ := ih h₂
      refine ⟨3 + n, ?_, ?_⟩
      · rw [hsplit, List.length_append, hsl]; omega
      · rw [hsplit, show (3 : Nat) + n = (stepActs lz env src e).length + n from by rw [hsl],
          List.take_append, applyActs_append, hE]

/-- The loop never touches the legacy XML path. -/
lemma read_loop_xml (lz : Resample) (env : Env) (src : Image) (fs : FS)
    (ds : List (String × Nat)) :
    (applyActs fs (loopActsOf lz env src ds)).read (xmlPath env) =
      fs.read (xmlPath env) := by
  apply read_applyActs_ne
  · intro p d hm
    obtain ⟨e, _, hp | hp⟩ := write_mem_loopActsOf hm
    · exact hp ▸ iconPath_ne_xmlPath env e.1
    · exact hp ▸ roundPath_ne_xmlPath env e.1
  · intro p hm
    exact absurd hm loopActsOf_no_remove

/-- File existence at the legacy XML path is unchanged by the loop. -/
lemma hasFile_loop_xml (lz : Resample) (env : Env) (src : Image) (fs : FS)
    (ds : List (String × Nat)) :
    (applyActs fs (loopActsOf lz env src ds)).hasFile (xmlPath env) =
      fs.hasFile (xmlPath env) := by
  unfold FS.hasFile
  rw [read_loop_xml]

/-- The loop never touches the source path. -/
lemma read_loop_src (lz : Resample) (env : Env) (src : Image) (fs : FS)
    (ds : List (String × Nat)) :
    (applyActs fs (loopActsOf lz env src ds)).read (SRC env) =
      fs.read (SRC env) := by
  apply read_applyActs_ne
  · intro p d hm
    obtain ⟨e, _, hp | hp⟩ := write_mem_loopActsOf hm
    · exact hp ▸ iconPath_ne_SRC env e.1
    · exact hp ▸ roundPath_ne_SRC env e.1
  · intro p hm
    exact absurd hm loopActsOf_no_remove

/-- A successful run never touches the source path. -/
lemma read_finalFS_src (lz : Resample) (env : Env) (src : Image) (fs : FS) :
    (finalFS lz env src fs).read (SRC env) = fs.read (SRC env) := by
  simp only [finalFS, loopActs]
  split
  · rw [FS.read_removeFile, if_neg (fun h => xmlPath_ne_SRC env h.symm),
      read_loop_src]
  · rw [read_loop_src]

/-- The legacy XML file is absent after a successful run. -/
lemma hasFile_finalFS_xml (lz : Resample) (env : Env) (src : Image) (fs : FS) :
    (finalFS lz env src fs).hasFile (xmlPath env) = false := by
  simp only [finalFS, loopActs]
  split
  · rw [FS.hasFile_removeFile, if_pos rfl]
  · rename_i h
    rw [hasFile_loop_xml] at h ⊢
    simpa using h

/-- A successful run's directories are those created by the loop. -/
lemma hasDir_finalFS (lz : Resample) (env : Env) (src : Image) (fs : FS)
    (p : Path) :
    (finalFS lz env src fs).hasDir p =
      (applyActs fs (loopActsOf lz env src DENSITIES)).hasDir p := by
  simp only [finalFS, loopActs]
  split <;> rfl

/-- The journal of a successful run is the planned act list, with the
removal of the legacy XML exactly when it existed beforehand, after all
ten writes. -/
lemma log_finalFS (lz : Resample) (env : Env) (src : Image) (fs : FS) :
    (finalFS lz env src fs).log =
      fs.log ++ plannedActs lz env src (fs.hasFile (xmlPath env)) := by
  simp only [finalFS, plannedActs, loopActs]
  split
  · rename_i hx
    rw [hasFile_loop_xml] at hx
    have hlog : (applyActs fs (loopActsOf lz env src DENSITIES)).log =
        fs.log ++ loopActsOf lz env src DENSITIES := log_applyActs _ _
    simp [FS.removeFile, hlog, hx, List.append_assoc]
  · rename_i hx
    rw [hasFile_loop_xml] at hx
    simp only [Bool.not_eq_true] at hx
    simp [log_applyActs, hx]

/-- Inversion of a successful run: the source was present and readable,
every output path was writable, the XML was removable when present, and
the result is exactly the planned final filesystem computed from the one
cropped source. -/
lemma main_ok {perm : Perm} {lz : Resample} {env : Env} {fs fs' : FS}
    (h : main perm lz env fs = .ok fs') :
    ∃ mode img,
      perm.canRead (SRC env) = true ∧
      fs.read (SRC env) = some (.image mode img) ∧
      (∀ e ∈ DENSITIES, perm.canWrite (iconPath env e.1) = true ∧
        perm.canWrite (roundPath env e.1) = true) ∧
      (fs.hasFile (xmlPath env) = true → perm.canRemove (xmlPath env) = true) ∧
      fs' = finalFS lz env (make_square (convertRGBA mode img)) fs := by
  unfold main at h
  rcases bind_ok h with ⟨mi, h₁, h₂⟩
  obtain ⟨hcr, hread⟩ := openImage_ok h₁
  rcases bind_ok h₂ with ⟨fsL, h₃, h₄⟩
  obtain ⟨hL, hperm⟩ := foldlM_ok h₃
  subst hL
  split at h₄
  · rename_i hx
    obtain ⟨hfs', hrm, _⟩ := removeFileOp_ok h₄
    refine ⟨mi.1, mi.2, hcr, hread, hperm, fun _ => hrm, ?_⟩
    rw [hfs']
    simp only [finalFS, loopActs]
    rw [if_pos hx]
  · rename_i hx
    have h₄' : Except.ok (applyActs fs
        (loopActsOf lz env (make_square (convertRGBA mi.1 mi.2)) DENSITIES)) =
        Except.ok fs' := h₄
    cases h₄'
    refine ⟨mi.1, mi.2, hcr, hread, hperm, ?_, ?_⟩
    · intro hfx
      rw [hasFile_loop_xml] at hx
      exact absurd hfx hx
    · simp only [finalFS, loopActs]
      rw [if_neg hx]

/-- A run succeeds when the source is a readable image, every density
directory is available, every output path is writable, and the legacy XML
is removable when present. -/
lemma main_eq_ok {perm : Perm} {lz : Resample} {env : Env} {fs : FS}
    {mode : String} {img : Image}
    (hread : fs.read (SRC env) = some (.image mode img))
    (hcr : perm.canRead (SRC env) = true)
    (hp : ∀ e ∈ DENSITIES, (fs.hasDir (RES env ++ [e.1]) = true ∨
        perm.canMkdir (RES env ++ [e.1]) = true) ∧
      perm.canWrite (iconPath env e.1) = true ∧
      perm.canWrite (roundPath env e.1) = true)
    (hrm : fs.hasFile (xmlPath env) = true → perm.canRemove (xmlPath env) = true) :
    main perm lz env fs =
      .ok (finalFS lz env (make_square (convertRGBA mode img)) fs) := by
  have ho : openImage perm fs (SRC env) = .ok (mode, img) := by
    unfold openImage
    rw [hcr]
    simp [hread]
  unfold main
  rw [ho, ok_bind]
  dsimp only
  rw [foldlM_eq_ok hp, ok_bind]
  cases hx : (applyActs fs
      (loopActsOf lz env (make_square (convertRGBA mode img)) DENSITIES)).hasFile
      (xmlPath env) with
  | false =>
    rw [if_neg (by simp [hx])]
    simp only [finalFS, loopActs]
    rw [if_neg (by simp [hx])]
    rfl
  | true =>
    have hfx : fs.hasFile (xmlPath env) = true := by
      rw [← hasFile_loop_xml lz env (make_square (convertRGBA mode img)) fs DENSITIES]
      exact hx
    rw [if_pos rfl, removeFileOp_eq_ok (hrm hfx) hx]
    simp only [finalFS, loopActs]
    rw [if_pos hx]

/-- Contents of the two output files of each density after the loop: each
is exactly the planned image computed from the one cropped source. -/
lemma read_loopFS_out (lz : Resample) (env : Env) (src : Image) (fs : FS)
    {d : String} {s : Nat} (hds : (d, s) ∈ DENSITIES) :
    (applyActs fs (loopActs lz env src)).read (iconPath env d) =
      some (.image "PNG" (Image.resize lz src (s, s))) ∧
    (applyActs fs (loopActs lz env src)).read (roundPath env d) =
      some (.image "PNG" (make_round lz (Image.copy src) s)) := by
  simp only [DENSITIES] at hds
  fin_cases hds <;>
    refine ⟨?_, ?_⟩ <;>
    simp [loopActs, loopActsOf, DENSITIES, stepActs, applyActs, applyAct,
      FS.read_write, FS.read_addDir, iconPath_eq, roundPath_eq,
      List.append_right_inj]

/-- Contents of the two output files of each density after a successful
run (the legacy removal never touches them). -/
lemma read_finalFS_out (lz : Resample) (env : Env) (src : Image) (fs : FS)
    {d : String} {s : Nat} (hds : (d, s) ∈ DENSITIES) :
    (finalFS lz env src fs).read (iconPath env d) =
      some (.image "PNG" (Image.resize lz src (s, s))) ∧
    (finalFS lz env src fs).read (roundPath env d) =
      some (.image "PNG" (make_round lz (Image.copy src) s)) := by
  obtain ⟨h1, h2⟩ := read_loopFS_out lz env src fs hds
  simp only [finalFS, loopActs] at h1 h2 ⊢
  split
  · constructor
    · rw [FS.read_removeFile, if_neg (iconPath_ne_xmlPath env d)]
      exact h1
    · rw [FS.read_removeFile, if_neg (roundPath_ne_xmlPath env d)]
      exact h2
  · exact ⟨h1, h2⟩

/-- C3: for every entry of the five-entry density table, a successful run
writes both `ic_launcher.png` and `ic_launcher_round.png` under the
corresponding density directory with pixel dimensions exactly the entry's
size; the ten output paths are pairwise distinct across the five
directories. -/
theorem c3_all_densities_written (perm : Perm) (lz : Resample) (env : Env)
    (fs fs' : FS) (h : main perm lz env fs = .ok fs') :
    (∀ d s, (d, s) ∈ DENSITIES →
      (∃ icon, fs'.read (iconPath env d) = some (.image "PNG" icon) ∧
        icon.width = s ∧ icon.height = s) ∧
      (∃ rnd, fs'.read (roundPath env d) = some (.image "PNG" rnd) ∧
        rnd.width = s ∧ rnd.height = s)) ∧
    (outputPaths env).length = 10 ∧
    (outputPaths env).Pairwise (· ≠ ·) := by
  obtain ⟨mode, img, _, _, _, _, hfs'⟩ := main_ok h
  subst hfs'
  refine ⟨?_, ?_, ?_⟩
  · intro d s hds
    obtain ⟨h1, h2⟩ :=
      read_finalFS_out lz env (make_square (convertRGBA mode img)) fs hds
    exact ⟨⟨_, h1, rfl, rfl⟩, ⟨_, h2, rfl, rfl⟩⟩
  · simp [outputPaths, DENSITIES]
  · have hmap : outputPaths env =
        ([["aigentik-android", "app", "src", "main", "res", "mipmap-mdpi", "ic_launcher.png"],
          ["aigentik-android", "app", "src", "main", "res", "mipmap-mdpi", "ic_launcher_round.png"],
          ["aigentik-android", "app", "src", "main", "res", "mipmap-hdpi", "ic_launcher.png"],
          ["aigentik-android", "app", "src", "main", "res", "mipmap-hdpi", "ic_launcher_round.png"],
          ["aigentik-android", "app", "src", "main", "res", "mipmap-xhdpi", "ic_launcher.png"],
          ["aigentik-android", "app", "src", "main", "res", "mipmap-xhdpi", "ic_launcher_round.png"],
          ["aigentik-android", "app", "src", "main", "res", "mipmap-xxhdpi", "ic_launcher.png"],
          ["aigentik-android", "app", "src", "main", "res", "mipmap-xxhdpi", "ic_launcher_round.png"],
          ["aigentik-android", "app", "src", "main", "res", "mipmap-xxxhdpi", "ic_launcher.png"],
          ["aigentik-android", "app", "src", "main", "res", "mipmap-xxxhdpi", "ic_launcher_round.png"]] :
          List (List String)).map (fun t => env.getHome ++ t) := by
      simp [outputPaths, DENSITIES, iconPath_eq, roundPath_eq]
    rw [hmap]
    refine List.pairwise_map.mpr ?_
    have htails : (([["aigentik-android", "app", "src", "main", "res", "mipmap-mdpi", "ic_launcher.png"],
          ["aigentik-android", "app", "src", "main", "res", "mipmap-mdpi", "ic_launcher_round.png"],
          ["aigentik-android", "app", "src", "main", "res", "mipmap-hdpi", "ic_launcher.png"],
          ["aigentik-android", "app", "src", "main", "res", "mipmap-hdpi", "ic_launcher_round.png"],
          ["aigentik-android", "app", "src", "main", "res", "mipmap-xhdpi", "ic_launcher.png"],
          ["aigentik-android", "app", "src", "main", "res", "mipmap-xhdpi", "ic_launcher_round.png"],
          ["aigentik-android", "app", "src", "main", "res", "mipmap-xxhdpi", "ic_launcher.png"],
          ["aigentik-android", "app", "src", "main", "res", "mipmap-xxhdpi", "ic_launcher_round.png"],
          ["aigentik-android", "app", "src", "main", "res", "mipmap-xxxhdpi", "ic_launcher.png"],
          ["aigentik-android", "app", "src", "main", "res", "mipmap-xxxhdpi", "ic_launcher_round.png"]] :
          List (List String))).Pairwise (· ≠ ·) := by decide
    exact htails.imp fun hne heq => hne (List.append_cancel_left heq)

/-- C8: the round masker is a pure function of its (copied) input — images
are immutable values, `Image.copy` is the identity on them — so a
successful run computes every one of the ten outputs from the single
cropped source image: each written file is exactly the stated function of
that one image. -/
theorem c8_outputs_from_one_crop (perm : Perm) (lz : Resample) (env : Env)
    (fs fs' : FS) (h : main perm lz env fs = .ok fs') :
    ∃ mode img,
      fs.read (SRC env) = some (.image mode img) ∧
      Image.copy (make_square (convertRGBA mode img)) =
        make_square (convertRGBA mode img) ∧
      ∀ d s, (d, s) ∈ DENSITIES →
        fs'.read (iconPath env d) =
          some (.image "PNG"
            (Image.resize lz (make_square (convertRGBA mode img)) (s, s))) ∧
        fs'.read (roundPath env d) =
          some (.image "PNG"
            (make_round lz (Image.copy (make_square (convertRGBA mode img))) s)) := by
  obtain ⟨mode, img, _, hread, _, _, hfs'⟩ := main_ok h
  subst hfs'
  exact ⟨mode, img, hread, rfl,
    fun d s hds => read_finalFS_out lz env (make_square (convertRGBA mode img)) fs hds⟩

/-- C4: the driver checks the single legacy path `drawable/ic_launcher.xml`
only after all five density entries are processed: the journal of every
successful run is the ten-write loop followed — and only followed — by the
removal, which happens exactly when the file existed beforehand; the file
is absent afterwards in either case, and when it is absent beforehand the
step is skipped (no removal in the journal) and a run with sufficient
permissions still completes without error. -/
theorem c4_legacy_xml :
    (∀ (perm : Perm) (lz : Resample) (env : Env) (fs fs' : FS),
      main perm lz env fs = .ok fs' →
      fs'.hasFile (xmlPath env) = false ∧
      ∃ mode img, fs.read (SRC env) = some (.image mode img) ∧
        fs'.log = fs.log ++
          (loopActs lz env (make_square (convertRGBA mode img)) ++
            if fs.hasFile (xmlPath env) then [Act.remove (xmlPath env)] else [])) ∧
    (∀ (perm : Perm) (lz : Resample) (env : Env) (fs : FS) (mode : String)
      (img : Image),
      fs.read (SRC env) = some (FileData.image mode img) →
      perm.canRead (SRC env) = true →
      (∀ e ∈ DENSITIES, perm.canMkdir (RES env ++ [e.1]) = true ∧
        perm.canWrite (iconPath env e.1) = true ∧
        perm.canWrite (roundPath env e.1) = true) →
      fs.hasFile (xmlPath env) = false →
      ∃ fs', main perm lz env fs = .ok fs' ∧ fs'.hasFile (xmlPath env) = false) := by
  constructor
  · intro perm lz env fs fs' h
    obtain ⟨mode, img, _, hread, _, _, hfs'⟩ := main_ok h
    subst hfs'
    refine ⟨hasFile_finalFS_xml lz env _ fs, mode, img, hread, ?_⟩
    have := log_finalFS lz env (make_square (convertRGBA mode img)) fs
    rw [this]
    rfl
  · intro perm lz env fs mode img hread hcr hp hx
    refine ⟨_, main_eq_ok hread hcr
      (fun e he => ⟨Or.inr (hp e he).1, (hp e he).2.1, (hp e he).2.2⟩)
      (fun hfx => absurd hfx (by rw [hx]; exact Bool.false_ne_true)), ?_⟩
    exact hasFile_finalFS_xml lz env _ fs

/-- C5: a failing run is an aborted run: when `main` propagates an error,
the filesystem at the failure point is exactly the one obtained by applying
a proper prefix of the planned operation list — the failing operation and
everything after it did nothing, nothing already written was cleaned up,
and every file written before the failure is still present.  (An error
before any operation — unreadable, missing or undecodable source — leaves
the filesystem exactly as it was.)  Errors are never caught: the model
propagates every operation failure directly to the caller. -/
theorem c5_error_truncated_run (perm : Perm) (lz : Resample) (env : Env)
    (fs : FS) (er : Err) (fsE : FS)
    (h : main perm lz env fs = .error (er, fsE)) :
    fsE = fs ∨
    ∃ mode img n,
      fs.read (SRC env) = some (FileData.image mode img) ∧
      n < (plannedActs lz env (make_square (convertRGBA mode img))
        (fs.hasFile (xmlPath env))).length ∧
      fsE = applyActs fs ((plannedActs lz env (make_square (convertRGBA mode img))
        (fs.hasFile (xmlPath env))).take n) ∧
      ∀ p d, Act.write p d ∈ (plannedActs lz env (make_square (convertRGBA mode img))
        (fs.hasFile (xmlPath env))).take n → fsE.hasFile p = true := by
  unfold main at h
  rcases bind_err h with h₁ | ⟨mi, h₁, h₂⟩
  · exact Or.inl (openImage_err h₁)
  · obtain ⟨hcr, hread⟩ := openImage_ok h₁
    right
    rcases bind_err h₂ with h₃ | ⟨fsL, h₃, h₄⟩
    · obtain ⟨n, hn, hE0⟩ := foldlM_err h₃
      have hE : fsE = applyActs fs
          ((loopActsOf lz env (make_square (convertRGBA mi.1 mi.2)) DENSITIES).take n) := hE0
      have hlen : (loopActsOf lz env (make_square (convertRGBA mi.1 mi.2)) DENSITIES).length ≤
          (plannedActs lz env (make_square (convertRGBA mi.1 mi.2))
            (fs.hasFile (xmlPath env))).length := by
        simp [plannedActs, loopActs]
      have htake : (plannedActs lz env (make_square (convertRGBA mi.1 mi.2))
          (fs.hasFile (xmlPath env))).take n =
          (loopActsOf lz env (make_square (convertRGBA mi.1 mi.2)) DENSITIES).take n := by
        simp only [plannedActs, loopActs]
        exact List.take_append_of_le_length (by omega)
      refine ⟨mi.1, mi.2, n, hread, by omega, ?_, ?_⟩
      · rw [htake]; exact hE
      · intro p d hm
        rw [htake] at hm
        rw [hE]
        apply hasFile_applyActs_of_write _ _ _ d hm
        intro q hq
        exact absurd (List.take_subset n _ hq) loopActsOf_no_remove
    · obtain ⟨hL, _⟩ := foldlM_ok h₃
      subst hL
      split at h₄
      · rename_i hx
        have hE : fsE = applyActs fs
            (loopActsOf lz env (make_square (convertRGBA mi.1 mi.2)) DENSITIES) :=
          removeFileOp_err h₄
        have hfx : fs.hasFile (xmlPath env) = true := by
          rw [← hasFile_loop_xml lz env (make_square (convertRGBA mi.1 mi.2)) fs DENSITIES]
          exact hx
        have hplan : plannedActs lz env (make_square (convertRGBA mi.1 mi.2))
            (fs.hasFile (xmlPath env)) =
            loopActsOf lz env (make_square (convertRGBA mi.1 mi.2)) DENSITIES ++
              [Act.remove (xmlPath env)] := by
          simp [plannedActs, loopActs, hfx]
        have htake : (plannedActs lz env (make_square (convertRGBA mi.1 mi.2))
            (fs.hasFile (xmlPath env))).take
              (loopActsOf lz env (make_square (convertRGBA mi.1 mi.2)) DENSITIES).length =
            loopActsOf lz env (make_square (convertRGBA mi.1 mi.2)) DENSITIES := by
          rw [hplan]
          exact List.take_left _ _
        refine ⟨mi.1, mi.2,
          (loopActsOf lz env (make_square (convertRGBA mi.1 mi.2)) DENSITIES).length,
          hread, ?_, ?_, ?_⟩
        · rw [hplan, List.length_append]
          simp
        · rw [htake]; exact hE
        · intro p d hm
          rw [htake] at hm
          rw [hE]
          apply hasFile_applyActs_of_write _ _ _ d hm
          intro q hq
          exact absurd hq loopActsOf_no_remove
      · exact absurd h₄ (by simp [pure, Except.pure])

/-- C7: running the program twice in succession on the same source
produces an identical file layout: the second run succeeds (overwriting
the first run's outputs without error) and afterwards every path holds
exactly the content it held after the first run. -/
theorem c7_second_run_same_layout (perm : Perm) (lz : Resample) (env : Env)
    (fs fs₁ : FS) (h : main perm lz env fs = .ok fs₁) :
    ∃ fs₂, main perm lz env fs₁ = .ok fs₂ ∧ ∀ p, fs₂.read p = fs₁.read p := by
  obtain ⟨mode, img, hcr, hread, hw, _, hfs₁⟩ := main_ok h
  have hread₁ : fs₁.read (SRC env) = some (.image mode img) := by
    rw [hfs₁, read_finalFS_src]
    exact hread
  have hdir : ∀ e ∈ DENSITIES, fs₁.hasDir (RES env ++ [e.1]) = true := by
    intro e he
    rw [hfs₁, hasDir_finalFS]
    exact hasDir_applyActs_of_mem _ _ _
      (mem_loopActsOf.mpr ⟨e, he, List.mem_cons_self _ _⟩)
  have hxml₁ : fs₁.hasFile (xmlPath env) = false := by
    rw [hfs₁]
    exact hasFile_finalFS_xml lz env _ fs
  have h₂ : main perm lz env fs₁ =
      .ok (finalFS lz env (make_square (convertRGBA mode img)) fs₁) :=
    main_eq_ok hread₁ hcr
      (fun e he => ⟨Or.inl (hdir e he), (hw e he).1, (hw e he).2⟩)
      (fun hfx => absurd hfx (by rw [hxml₁]; exact Bool.false_ne_true))
  refine ⟨_, h₂, ?_⟩
  intro p
  have hxL : (applyActs fs₁
      (loopActs lz env (make_square (convertRGBA mode img)))).hasFile
      (xmlPath env) = false := by
    simp only [loopActs]
    rw [hasFile_loop_xml]
    exact hxml₁
  have hfin : finalFS lz env (make_square (convertRGBA mode img)) fs₁ =
      applyActs fs₁ (loopActs lz env (make_square (convertRGBA mode img))) := by
    simp only [finalFS]
    rw [if_neg (by simp [hxL])]
  rw [hfin]
  by_cases hpo : ∃ e ∈ DENSITIES, p = iconPath env e.1 ∨ p = roundPath env e.1
  · obtain ⟨e, he, hpi | hpi⟩ := hpo
    · subst hpi
      have hds : (e.1, e.2) ∈ DENSITIES := by cases e; exact he
      rw [(read_loopFS_out lz env (make_square (convertRGBA mode img)) fs₁ hds).1,
        hfs₁, (read_finalFS_out lz env (make_square (convertRGBA mode img)) fs hds).1]
    · subst hpi
      have hds : (e.1, e.2) ∈ DENSITIES := by cases e; exact he
      rw [(read_loopFS_out lz env (make_square (convertRGBA mode img)) fs₁ hds).2,
        hfs₁, (read_finalFS_out lz env (make_square (convertRGBA mode img)) fs hds).2]
  · push_neg at hpo
    apply read_applyActs_ne
    · intro q d hm
      obtain ⟨e, he, hq | hq⟩ :=
        write_mem_loopActsOf (by simpa only [loopActs] using hm)
      · subst hq
        exact fun heq => (hpo e he).1 heq.symm
      · subst hq
        exact fun heq => (hpo e he).2 heq.symm
    · intro q hm
      exact absurd (by simpa only [loopActs] using hm) loopActsOf_no_remove

/-- C6 (amended): the program reads exactly one piece of the process
environment — the home directory (`HOME` through `os.path.expanduser`, with
the password-database fallback when it is unset).  Two runs whose resolved
home directories coincide, whatever else differs in the environment, have
identical input path, output root, legacy path, and run result.  (The
original claim — no environment variable is consulted at all — fails:
`os.path.expanduser` consults `HOME`, see the counterexample.) -/
theorem c6_env_only_home (perm : Perm) (lz : Resample) (env₁ env₂ : Env)
    (fs : FS) (hh : env₁.getHome = env₂.getHome) :
    SRC env₁ = SRC env₂ ∧ RES env₁ = RES env₂ ∧ xmlPath env₁ = xmlPath env₂ ∧
    main perm lz env₁ fs = main perm lz env₂ fs := by
  have hsrc : SRC env₁ = SRC env₂ := by rw [SRC_eq, SRC_eq, hh]
  have hres : RES env₁ = RES env₂ := by simp [RES, expandUser, hh]
  have hxml : xmlPath env₁ = xmlPath env₂ := by rw [xmlPath, xmlPath, hres]
  have hstep : densityStep perm lz env₁ = densityStep perm lz env₂ := by
    funext src fs' e
    unfold densityStep
    rw [hres]
  refine ⟨hsrc, hres, hxml, ?_⟩
  unfold main
  rw [hsrc, hstep, hxml]

/-- Counterexample to C6 as stated: two environments identical except for
the value of `HOME` (same user database entry) produce different source
paths — the program does consult the `HOME` environment variable, through
`os.path.expanduser`. -/
theorem c6_home_changes_paths_cex :
    envA.pwdHome = envB.pwdHome ∧ SRC envA ≠ SRC envB ∧ RES envA ≠ RES envB := by
  decide

/-- Witness for C6: an environment extended with an unrelated variable
resolves the same home, and the whole run is unchanged. -/
theorem c6_env_only_home_check :
    SRC envA = SRC envA2 ∧ RES envA = RES envA2 ∧ xmlPath envA = xmlPath envA2 ∧
    main permAll lzOpaque envA fsT = main permAll lzOpaque envA2 fsT :=
  c6_env_only_home permAll lzOpaque envA envA2 fsT (by decide)

/-- A concrete successful full run over the test fixtures. -/
lemma testRun_ok : main permAll lzOpaque envT fsT =
    .ok (finalFS lzOpaque envT (make_square (convertRGBA "RGB" (mkImg 1000 600))) fsT) := by
  apply main_eq_ok
  · rfl
  · rfl
  · intro e _
    exact ⟨Or.inr rfl, rfl, rfl⟩
  · intro _
    rfl

/-- Witness for C3: in the concrete run over the 1000×600 source, the crop
is 600×600, the `mipmap-mdpi` icon is 48×48, the `mipmap-xxxhdpi` round
icon is 192×192, and the ten output paths are distinct. -/
theorem c3_all_densities_written_check :
    (∃ icon, (finalFS lzOpaque envT (make_square (convertRGBA "RGB" (mkImg 1000 600))) fsT).read
        (iconPath envT "mipmap-mdpi") = some (.image "PNG" icon) ∧
      icon.width = 48 ∧ icon.height = 48) ∧
    (∃ rnd, (finalFS lzOpaque envT (make_square (convertRGBA "RGB" (mkImg 1000 600))) fsT).read
        (roundPath envT "mipmap-xxxhdpi") = some (.image "PNG" rnd) ∧
      rnd.width = 192 ∧ rnd.height = 192) ∧
    (make_square (mkImg 1000 600)).width = 600 ∧
    (make_square (mkImg 1000 600)).height = 600 ∧
    (outputPaths envT).length = 10 ∧
    (outputPaths envT).Pairwise (· ≠ ·) := by
  have h := c3_all_densities_written permAll lzOpaque envT fsT _ testRun_ok
  exact ⟨(h.1 "mipmap-mdpi" 48 (by decide)).1, (h.1 "mipmap-xxxhdpi" 192 (by decide)).2,
    rfl, rfl, h.2.1, h.2.2⟩

/-- Witness for C7: the concrete run repeated. -/
theorem c7_second_run_same_layout_check :
    ∃ fs₂, main permAll lzOpaque envT
        (finalFS lzOpaque envT (make_square (convertRGBA "RGB" (mkImg 1000 600))) fsT) =
      .ok fs₂ ∧
    ∀ p, fs₂.read p =
      (finalFS lzOpaque envT (make_square (convertRGBA "RGB" (mkImg 1000 600))) fsT).read p :=
  c7_second_run_same_layout permAll lzOpaque envT fsT _ testRun_ok

/-- Witness for C8: the concrete run's outputs are all computed from the
one cropped source. -/
theorem c8_outputs_from_one_crop_check :
    ∃ mode img,
      fsT.read (SRC envT) = some (.image mode img) ∧
      Image.copy (make_square (convertRGBA mode img)) =
        make_square (convertRGBA mode img) ∧
      ∀ d s, (d, s) ∈ DENSITIES →
        (finalFS lzOpaque envT (make_square (convertRGBA "RGB" (mkImg 1000 600))) fsT).read
            (iconPath envT d) =
          some (.image "PNG"
            (Image.resize lzOpaque (make_square (convertRGBA mode img)) (s, s))) ∧
        (finalFS lzOpaque envT (make_square (convertRGBA "RGB" (mkImg 1000 600))) fsT).read
            (roundPath envT d) =
          some (.image "PNG"
            (make_round lzOpaque (Image.copy (make_square (convertRGBA mode img))) s)) :=
  c8_outputs_from_one_crop permAll lzOpaque envT fsT _ testRun_ok

/-- Witness for C5: a run with all permissions denied fails at the very
first operation, leaving the filesystem exactly as it was. -/
theorem c5_error_truncated_run_check :
    fsT = fsT ∨
    ∃ mode img n,
      fsT.read (SRC envT) = some (FileData.image mode img) ∧
      n < (plannedActs lzOpaque envT (make_square (convertRGBA mode img))
        (fsT.hasFile (xmlPath envT))).length ∧
      fsT = applyActs fsT ((plannedActs lzOpaque envT (make_square (convertRGBA mode img))
        (fsT.hasFile (xmlPath envT))).take n) ∧
      ∀ p d, Act.write p d ∈ (plannedActs lzOpaque envT (make_square (convertRGBA mode img))
        (fsT.hasFile (xmlPath envT))).take n → fsT.hasFile p = true :=
  c5_error_truncated_run permNone lzOpaque envT fsT (Err.denied (SRC envT)) fsT (by rfl)

end GenIcons
